import Mathlib

/-!
Shallow embedding of `lib/framebuffer.cc` of the rpi-rgb-led-matrix repository
(the framebuffer store, its mutators, the color mapping and the refresh
engine `DumpToMatrix`), together with theorems settling the frozen claims.

Build configuration modelled: the default one — none of `ADAFRUIT_RGBMATRIX_HAT`
(`ONLY_SINGLE_CHAIN`), `ONLY_SINGLE_SUB_PANEL`, `CM_5_CHAIN_SUPPORT` and
`PI_REV1_RGB_PINOUT_` is defined, so there is a single GPIO word, three
possible parallel chains and `SUB_PANELS_ = 2`.  The two preprocessor options
that the claims mention (`RGB_SWAP_GREEN_BLUE` giving `PANEL_SWAP_G_B_`, and
`INVERSE_RGB_DISPLAY_COLORS`) are carried as a `Config` record, so that the
embedding covers every combination of those two flags; each `if cfg...`
corresponds literally to the `#ifdef` in the source.

Machine integers are modelled as `Nat` (the quantities involved never reach
their C types' bounds: color values are at most `0xffff`, buffer indices and
pin words are small).  The floating-point computation in `luminance_cie1931`
is modelled over `ℚ` with the exact decimal constants of the source; the final
cast `uint16_t` of a non-negative value is `Int.toNat ∘ Int.floor`.
-/

namespace RgbMatrix

/-- Maximum usable bitplanes (`enum { kBitPlanes = 11 }` in framebuffer.cc). -/
def kBitPlanes : Nat := 11

/-- Base on-time of the lowest bitplane in nanoseconds
(`static const long kBaseTimeNanos = 130`). -/
def kBaseTimeNanos : Nat := 130

/-- One IO word of the bitplane buffer: the named single-bit fields of
`union IoBits` (framebuffer-internal.h; the union's default constructor
zeroes the word, hence the `false` defaults).  In the default build there is
one GPIO word holding the color lanes of chains p0..p2, the address lines
a..e, clock, strobe and output-enable.  Bit positions within the word are
abstracted away: each field is one distinct pin. -/
structure IoBits where
  p0_r1 : Bool := false
  p0_g1 : Bool := false
  p0_b1 : Bool := false
  p0_r2 : Bool := false
  p0_g2 : Bool := false
  p0_b2 : Bool := false
  p1_r1 : Bool := false
  p1_g1 : Bool := false
  p1_b1 : Bool := false
  p1_r2 : Bool := false
  p1_g2 : Bool := false
  p1_b2 : Bool := false
  p2_r1 : Bool := false
  p2_g1 : Bool := false
  p2_b1 : Bool := false
  p2_r2 : Bool := false
  p2_g2 : Bool := false
  p2_b2 : Bool := false
  a : Bool := false
  b : Bool := false
  c : Bool := false
  d : Bool := false
  e : Bool := false
  clock : Bool := false
  strobe : Bool := false
  output_enable : Bool := false
deriving DecidableEq, Repr

/-- The zero IO word (`raw = 0`). -/
def IoBits.zero : IoBits := {}

/-- Pointwise subset of set pins: every pin set in `x` is also set in `y`. -/
def IoBits.subset (x y : IoBits) : Bool :=
  (!x.p0_r1 || y.p0_r1) && (!x.p0_g1 || y.p0_g1) && (!x.p0_b1 || y.p0_b1) &&
  (!x.p0_r2 || y.p0_r2) && (!x.p0_g2 || y.p0_g2) && (!x.p0_b2 || y.p0_b2) &&
  (!x.p1_r1 || y.p1_r1) && (!x.p1_g1 || y.p1_g1) && (!x.p1_b1 || y.p1_b1) &&
  (!x.p1_r2 || y.p1_r2) && (!x.p1_g2 || y.p1_g2) && (!x.p1_b2 || y.p1_b2) &&
  (!x.p2_r1 || y.p2_r1) && (!x.p2_g1 || y.p2_g1) && (!x.p2_b1 || y.p2_b1) &&
  (!x.p2_r2 || y.p2_r2) && (!x.p2_g2 || y.p2_g2) && (!x.p2_b2 || y.p2_b2) &&
  (!x.a || y.a) && (!x.b || y.b) && (!x.c || y.c) && (!x.d || y.d) && (!x.e || y.e) &&
  (!x.clock || y.clock) && (!x.strobe || y.strobe) &&
  (!x.output_enable || y.output_enable)

/-- All eighteen color-lane fields of an IO word equal `v`. -/
def colorBitsAre (w : IoBits) (v : Bool) : Bool :=
  (w.p0_r1 == v) && (w.p0_g1 == v) && (w.p0_b1 == v) &&
  (w.p0_r2 == v) && (w.p0_g2 == v) && (w.p0_b2 == v) &&
  (w.p1_r1 == v) && (w.p1_g1 == v) && (w.p1_b1 == v) &&
  (w.p1_r2 == v) && (w.p1_g2 == v) && (w.p1_b2 == v) &&
  (w.p2_r1 == v) && (w.p2_g1 == v) && (w.p2_b1 == v) &&
  (w.p2_r2 == v) && (w.p2_g2 == v) && (w.p2_b2 == v)

/-- No address line a..e is set in the word. -/
def addressFree (w : IoBits) : Bool :=
  !w.a && !w.b && !w.c && !w.d && !w.e

/-- The two compile-time display options the claims mention:
`RGB_SWAP_GREEN_BLUE` (→ `PANEL_SWAP_G_B_`) and `INVERSE_RGB_DISPLAY_COLORS`. -/
structure Config where
  swap_green_blue : Bool
  inverse_colors : Bool
deriving DecidableEq, Repr

/-- The framebuffer state: constructor-fixed geometry, the adjustable
`pwm_bits_` / `do_luminance_correct_` / `brightness_` members, and the
bitplane buffer.  The buffer (`bitplane_buffer_0`, an array of
`double_rows * columns * kBitPlanes` IO words) is modelled as a total
function from the flat index; indices past the allocation are never read
nor written by any of the embedded operations. -/
structure Framebuffer where
  cfg : Config
  rows : Nat
  parallel : Nat
  columns : Nat
  pwm_bits : Nat
  do_luminance_correct : Bool
  brightness : Nat
  buffer : Nat → IoBits

/-- `height_ = rows * parallel`. -/
def Framebuffer.height (fb : Framebuffer) : Nat := fb.rows * fb.parallel

/-- `double_rows_ = rows / SUB_PANELS_` with `SUB_PANELS_ = 2`. -/
def Framebuffer.double_rows (fb : Framebuffer) : Nat := fb.rows / 2

/-- `row_mask_ = double_rows_ - 1`. -/
def Framebuffer.row_mask (fb : Framebuffer) : Nat := fb.double_rows - 1

/-- Flat buffer index of `ValueAt_0(double_row, column, bit)`:
`double_row * (columns_ * kBitPlanes) + bit * columns_ + column`. -/
def Framebuffer.offset (fb : Framebuffer) (double_row column bit : Nat) : Nat :=
  double_row * (fb.columns * kBitPlanes) + bit * fb.columns + column

/-- `luminance_cie1931(c, brightness)` as the source computes it, over `ℚ`:
`out_factor = (1 << kBitPlanes) - 1`, `v = c * brightness / 255.0`, result
`out_factor * (v <= 8 ? v / 902.3 : ((v + 16) / 116)^3)` cast to `uint16_t`
(truncation of a non-negative value, i.e. floor).  Note the source's divisor
is 902.3, not the CIE1931 constant 903.3. -/
def luminance_cie1931 (c brightness : Nat) : Nat :=
  (⌊(((1 <<< kBitPlanes) - 1 : Nat) : ℚ) *
      (if (c : ℚ) * (brightness : ℚ) / 255 ≤ 8
       then (c : ℚ) * (brightness : ℚ) / 255 / (9023 / 10)
       else (((c : ℚ) * (brightness : ℚ) / 255 + 16) / 116) ^ 3)⌋).toNat

/-- The luminance curve exactly as the spec states it (divisor 903.3 — the
CIE1931 linear-toe constant), for comparison with the source's
`luminance_cie1931`. -/
def luminance_cie1931_spec (c brightness : Nat) : Nat :=
  (⌊(((1 <<< kBitPlanes) - 1 : Nat) : ℚ) *
      (if (c : ℚ) * (brightness : ℚ) / 255 ≤ 8
       then (c : ℚ) * (brightness : ℚ) / 255 / (9033 / 10)
       else (((c : ℚ) * (brightness : ℚ) / 255 + 16) / 116) ^ 3)⌋).toNat

/-- `Framebuffer::MapColor(c)`.  In corrected mode the lookup table holds
`luminance_cie1931(c, brightness_)` (the table entry `[c][brightness_-1]`
memoizes exactly that value for `brightness_ ∈ [1,100]`); in linear mode the
value is scaled by brightness (the reassignment to the `uint8_t` parameter
truncates mod 256) and shifted left to fill `kBitPlanes` bits.
`COLOR_OUT_BITS` XORs with `0xffff` under `INVERSE_RGB_DISPLAY_COLORS`. -/
def Framebuffer.MapColor (fb : Framebuffer) (col : Nat) : Nat :=
  let colorOut : Nat → Nat := fun x => if fb.cfg.inverse_colors then x ^^^ 0xffff else x
  if fb.do_luminance_correct then
    colorOut (luminance_cie1931 col fb.brightness)
  else
    let c2 := col * fb.brightness / 100 % 256
    colorOut (c2 <<< (kBitPlanes - 8))

/-- The IO word `plane_bits0` that `Fill` writes for one plane `b`: color
lanes of all chains set from bit `b` of the mapped colors
(`(red & mask) == mask` with `mask = 1 << b`), every other field zero. -/
def planeBitsOf (red green blue pl : Nat) : IoBits :=
  { p0_r1 := red.testBit pl, p0_r2 := red.testBit pl,
    p1_r1 := red.testBit pl, p1_r2 := red.testBit pl,
    p2_r1 := red.testBit pl, p2_r2 := red.testBit pl,
    p0_g1 := green.testBit pl, p0_g2 := green.testBit pl,
    p1_g1 := green.testBit pl, p1_g2 := green.testBit pl,
    p2_g1 := green.testBit pl, p2_g2 := green.testBit pl,
    p0_b1 := blue.testBit pl, p0_b2 := blue.testBit pl,
    p1_b1 := blue.testBit pl, p1_b2 := blue.testBit pl,
    p2_b1 := blue.testBit pl, p2_b2 := blue.testBit pl }

/-- `Framebuffer::Fill(r, g, b)`: for every plane `b ∈ [kBitPlanes - pwm_bits_,
kBitPlanes)`, every double-row and every column, overwrite the cell with
`plane_bits0`.  The loop nest is expressed as a function of the decomposed
flat index (`row = i / (columns*kBitPlanes)`, `plane = i % (columns*kBitPlanes)
/ columns`), which enumerates exactly the offsets the loops write. -/
def Framebuffer.Fill (fb : Framebuffer) (r g b : Nat) : Framebuffer :=
  let red := fb.MapColor r
  let green := fb.MapColor (if fb.cfg.swap_green_blue then b else g)
  let blue := fb.MapColor (if fb.cfg.swap_green_blue then g else b)
  { fb with buffer := fun i =>
      let row := i / (fb.columns * kBitPlanes)
      let plane := i % (fb.columns * kBitPlanes) / fb.columns
      if row < fb.double_rows ∧ kBitPlanes - fb.pwm_bits ≤ plane then
        planeBitsOf red green blue plane
      else fb.buffer i }

/-- `Framebuffer::Clear()`: `memset` the buffer to zero, or `Fill(0,0,0)`
under `INVERSE_RGB_DISPLAY_COLORS`. -/
def Framebuffer.Clear (fb : Framebuffer) : Framebuffer :=
  if fb.cfg.inverse_colors then fb.Fill 0 0 0
  else { fb with buffer := fun _ => IoBits.zero }

/-- The state established by the constructor's member-initializer list:
`pwm_bits_ = kBitPlanes`, `do_luminance_correct_ = true`, `brightness_ = 100`
and a freshly allocated (zero-constructed) buffer. -/
def rawFramebuffer (cfg : Config) (rows columns parallel : Nat) : Framebuffer :=
  { cfg := cfg, rows := rows, parallel := parallel, columns := columns,
    pwm_bits := kBitPlanes, do_luminance_correct := true, brightness := 100,
    buffer := fun _ => IoBits.zero }

/-- The constructor: the member initializers, then `Clear()` in the body. -/
def Framebuffer.construct (cfg : Config) (rows columns parallel : Nat) : Framebuffer :=
  (rawFramebuffer cfg rows columns parallel).Clear

/-- The per-cell field update of `SetPixel`: the manually expanded chain /
sub-panel cases select which three color-lane bits of the word are assigned;
all other fields of the cell are left untouched. -/
def setPixelFields (rows double_rows yn red green blue pl : Nat) (w : IoBits) : IoBits :=
  if yn < rows then
    if yn < double_rows then
      { w with p0_r1 := red.testBit pl, p0_g1 := green.testBit pl, p0_b1 := blue.testBit pl }
    else
      { w with p0_r2 := red.testBit pl, p0_g2 := green.testBit pl, p0_b2 := blue.testBit pl }
  else if yn < 2 * rows then
    if yn - rows < double_rows then
      { w with p1_r1 := red.testBit pl, p1_g1 := green.testBit pl, p1_b1 := blue.testBit pl }
    else
      { w with p1_r2 := red.testBit pl, p1_g2 := green.testBit pl, p1_b2 := blue.testBit pl }
  else if yn < 3 * rows then
    if yn - 2 * rows < double_rows then
      { w with p2_r1 := red.testBit pl, p2_g1 := green.testBit pl, p2_b1 := blue.testBit pl }
    else
      { w with p2_r2 := red.testBit pl, p2_g2 := green.testBit pl, p2_b2 := blue.testBit pl }
  else w

/-- `Framebuffer::SetPixel(x, y, r, g, b)`: silent no-op when out of range;
otherwise map the colors (green/blue exchanged under `PANEL_SWAP_G_B_`) and,
for each plane `b ∈ [kBitPlanes - pwm_bits_, kBitPlanes)`, assign the three
color bits of the owning chain/sub-panel at cell
`(y & row_mask_, x, b)`, leaving all other bits of those cells and all other
cells untouched. -/
def Framebuffer.SetPixel (fb : Framebuffer) (x y : Int) (r g b : Nat) : Framebuffer :=
  if x < 0 ∨ (fb.columns : Int) ≤ x ∨ y < 0 ∨ (fb.height : Int) ≤ y then fb
  else
    let red := fb.MapColor r
    let green := fb.MapColor (if fb.cfg.swap_green_blue then b else g)
    let blue := fb.MapColor (if fb.cfg.swap_green_blue then g else b)
    let xn := x.toNat
    let yn := y.toNat
    let min_bit_plane := kBitPlanes - fb.pwm_bits
    { fb with buffer := fun i =>
        let row := i / (fb.columns * kBitPlanes)
        let plane := i % (fb.columns * kBitPlanes) / fb.columns
        let col := i % fb.columns
        if row = yn &&& fb.row_mask ∧ col = xn ∧ min_bit_plane ≤ plane then
          setPixelFields fb.rows fb.double_rows yn red green blue plane (fb.buffer i)
        else fb.buffer i }

/-- `Framebuffer::SetPWMBits(value)`: fail (returning `false`, state
unchanged) unless `1 ≤ value ≤ kBitPlanes`; otherwise store it. -/
def Framebuffer.SetPWMBits (fb : Framebuffer) (value : Nat) : Bool × Framebuffer :=
  if value < 1 ∨ value > kBitPlanes then (false, fb)
  else (true, { fb with pwm_bits := value })

/-- Modelled from the spec: `SetBrightness(v)` is declared in
framebuffer-internal.h, which is not under src/.  Per the spec (§4.3)
it accepts `v ∈ [1, 100]`; an out-of-range value is ignored and the state
left unchanged.  It only stores the member `brightness_`; the buffer is
untouched (the new brightness takes effect on the next mutator call). -/
def Framebuffer.SetBrightness (fb : Framebuffer) (v : Nat) : Framebuffer :=
  if 1 ≤ v ∧ v ≤ 100 then { fb with brightness := v } else fb

/-- One call of the mutator API. -/
inductive Mutator where
  | clear : Mutator
  | fill (r g b : Nat) : Mutator
  | setPixel (x y : Int) (r g b : Nat) : Mutator
  | setPWMBits (v : Nat) : Mutator
  | setBrightness (v : Nat) : Mutator

/-- Apply one mutator call to the state. -/
def applyMutator (fb : Framebuffer) : Mutator → Framebuffer
  | Mutator.clear => fb.Clear
  | Mutator.fill r g b => fb.Fill r g b
  | Mutator.setPixel x y r g b => fb.SetPixel x y r g b
  | Mutator.setPWMBits v => (fb.SetPWMBits v).2
  | Mutator.setBrightness v => fb.SetBrightness v

/-- Run a sequence of mutator calls. -/
def runMutators (fb : Framebuffer) (l : List Mutator) : Framebuffer :=
  l.foldl applyMutator fb

/-- Is the mutator one that writes into the bitplane buffer with the
then-current `pwm_bits_` bound (`Fill` or `SetPixel`)? -/
def isBufferWrite : Mutator → Bool
  | Mutator.fill _ _ _ => true
  | Mutator.setPixel _ _ _ _ _ => true
  | _ => false

/-- Along the run of the sequence, every `Fill`/`SetPixel` call happens while
`pwm_bits_ ≤ P`. -/
def writesBounded (P : Nat) : Framebuffer → List Mutator → Bool
  | _, [] => true
  | fb, m :: rest =>
    (!(isBufferWrite m) || decide (fb.pwm_bits ≤ P)) && writesBounded P (applyMutator fb m) rest

/-- One call against the GPIO backend or the pin pulser, in the order
`DumpToMatrix` issues them. -/
inductive OutputEvent where
  | writeMasked (value mask : IoBits) : OutputEvent
  | setBits (bits : IoBits) : OutputEvent
  | clearBits (bits : IoBits) : OutputEvent
  | sendPulse (plane : Nat) : OutputEvent
  | waitPulseFinished : OutputEvent
deriving DecidableEq, Repr

/-- The GPIO mask an event drives (for `SetBits`/`ClearBits` the touched pins
are the given bits; pulser calls drive no GPIO word of ours). -/
def eventMask : OutputEvent → IoBits
  | OutputEvent.writeMasked _ mask => mask
  | OutputEvent.setBits bits => bits
  | OutputEvent.clearBits bits => bits
  | OutputEvent.sendPulse _ => IoBits.zero
  | OutputEvent.waitPulseFinished => IoBits.zero

/-- `color_clk_mask0` of `DumpToMatrix`: color lanes of chain p0, of p1 when
`parallel_ >= 2`, of p2 when `parallel_ >= 3`, plus the clock bit. -/
def colorClkMask (parallel : Nat) : IoBits :=
  { p0_r1 := true, p0_g1 := true, p0_b1 := true,
    p0_r2 := true, p0_g2 := true, p0_b2 := true,
    p1_r1 := decide (2 ≤ parallel), p1_g1 := decide (2 ≤ parallel),
    p1_b1 := decide (2 ≤ parallel), p1_r2 := decide (2 ≤ parallel),
    p1_g2 := decide (2 ≤ parallel), p1_b2 := decide (2 ≤ parallel),
    p2_r1 := decide (3 ≤ parallel), p2_g1 := decide (3 ≤ parallel),
    p2_b1 := decide (3 ≤ parallel), p2_r2 := decide (3 ≤ parallel),
    p2_g2 := decide (3 ≤ parallel), p2_b2 := decide (3 ≤ parallel),
    clock := true }

/-- `row_mask` of `DumpToMatrix`: all five address lines a..e. -/
def rowMaskBits : IoBits :=
  { a := true, b := true, c := true, d := true, e := true }

/-- `clock` of `DumpToMatrix`: the clock bit. -/
def clockBits : IoBits := { clock := true }

/-- `strobe` of `DumpToMatrix`: the strobe bit. -/
def strobeBits : IoBits := { strobe := true }

/-- `row_address` for a given double-row: each 1-bit address field receives
the corresponding bit of `d_row` (`a = d_row`, `b = d_row >> 1`, ...; the
1-bit bitfield assignment keeps the low bit). -/
def rowAddressBits (d_row : Nat) : IoBits :=
  { a := d_row.testBit 0, b := d_row.testBit 1, c := d_row.testBit 2,
    d := d_row.testBit 3, e := d_row.testBit 4 }

/-- The pin mask `b0` that `Framebuffer::InitGPIO(io, rows, parallel)` declares
via `InitOutputs0`: output-enable, clock, strobe, chain p0 colors, p1/p2
colors gated on `parallel`, address line `a` always and b/c/d/e gated on
`double_rows = rows / 2`. -/
def initMask (rows parallel : Nat) : IoBits :=
  { output_enable := true, clock := true, strobe := true,
    p0_r1 := true, p0_g1 := true, p0_b1 := true,
    p0_r2 := true, p0_g2 := true, p0_b2 := true,
    p1_r1 := decide (2 ≤ parallel), p1_g1 := decide (2 ≤ parallel),
    p1_b1 := decide (2 ≤ parallel), p1_r2 := decide (2 ≤ parallel),
    p1_g2 := decide (2 ≤ parallel), p1_b2 := decide (2 ≤ parallel),
    p2_r1 := decide (3 ≤ parallel), p2_g1 := decide (3 ≤ parallel),
    p2_b1 := decide (3 ≤ parallel), p2_r2 := decide (3 ≤ parallel),
    p2_g2 := decide (3 ≤ parallel), p2_b2 := decide (3 ≤ parallel),
    a := true, b := decide (4 ≤ rows / 2), c := decide (8 ≤ rows / 2),
    d := decide (16 ≤ rows / 2), e := decide (32 ≤ rows / 2) }

/-- The pulse-duration table built in `InitGPIO`:
entry `b` is `kBaseTimeNanos << b`, for `b ∈ [0, kBitPlanes)`. -/
def bitplane_timings : List Nat :=
  (List.range kBitPlanes).map (fun b => kBaseTimeNanos <<< b)

/-- The events of one bit-plane of one double-row: per column a masked write
of the cell under `color_clk_mask0` followed by a clock `SetBits`; then the
`ClearBits` of `color_clk_mask0`, `WaitPulseFinished`, the strobe set/clear
pair, and `SendPulse(b)`. -/
def planeEvents (fb : Framebuffer) (d_row bpl : Nat) : List OutputEvent :=
  ((List.range fb.columns).flatMap (fun col =>
      [OutputEvent.writeMasked (fb.buffer (fb.offset d_row col bpl))
         (colorClkMask fb.parallel),
       OutputEvent.setBits clockBits])) ++
  [OutputEvent.clearBits (colorClkMask fb.parallel),
   OutputEvent.waitPulseFinished,
   OutputEvent.setBits strobeBits,
   OutputEvent.clearBits strobeBits,
   OutputEvent.sendPulse bpl]

/-- The events of one double-row: the row-address masked write, then the
planes `b ∈ [kBitPlanes - pwm_to_show, kBitPlanes)` in increasing order,
then the final `WaitPulseFinished` before the next row. -/
def DumpRow (fb : Framebuffer) (pwm_to_show d_row : Nat) : List OutputEvent :=
  OutputEvent.writeMasked (rowAddressBits d_row) rowMaskBits ::
    (((List.range' (kBitPlanes - pwm_to_show) pwm_to_show).flatMap
        (planeEvents fb d_row)) ++
     [OutputEvent.waitPulseFinished])

/-- `Framebuffer::DumpToMatrix(io)`: `pwm_to_show` is latched from
`pwm_bits_` once at the start of the frame, then each double-row is walked
in order. -/
def Framebuffer.DumpToMatrix (fb : Framebuffer) : List OutputEvent :=
  (List.range fb.double_rows).flatMap (DumpRow fb fb.pwm_bits)

/-- The planes pulsed in an event list, in order. -/
def pulsePlanes (evs : List OutputEvent) : List Nat :=
  evs.filterMap (fun ev => match ev with
    | OutputEvent.sendPulse bpl => some bpl
    | _ => none)

/-- Number of strobe `SetBits` events in an event list. -/
def strobeSetCount (evs : List OutputEvent) : Nat :=
  evs.countP (fun ev => decide (ev = OutputEvent.setBits strobeBits))

/-- Read one color-lane bit at a cell, selecting the field of the chain and
sub-panel that owns pixel row `yn` — the mirror of `setPixelFields`.
`chan` selects red (0), green (1) or blue (2). -/
def readChan (rows double_rows yn chan : Nat) (w : IoBits) : Bool :=
  if yn < rows then
    if yn < double_rows then
      if chan = 0 then w.p0_r1 else if chan = 1 then w.p0_g1 else w.p0_b1
    else
      if chan = 0 then w.p0_r2 else if chan = 1 then w.p0_g2 else w.p0_b2
  else if yn < 2 * rows then
    if yn - rows < double_rows then
      if chan = 0 then w.p1_r1 else if chan = 1 then w.p1_g1 else w.p1_b1
    else
      if chan = 0 then w.p1_r2 else if chan = 1 then w.p1_g2 else w.p1_b2
  else if yn < 3 * rows then
    if yn - 2 * rows < double_rows then
      if chan = 0 then w.p2_r1 else if chan = 1 then w.p2_g1 else w.p2_b1
    else
      if chan = 0 then w.p2_r2 else if chan = 1 then w.p2_g2 else w.p2_b2
  else false

/-- Reassemble the per-plane bits stored for pixel `(x, yn)` on channel
`chan` across the displayed planes `[kBitPlanes - pwm_bits_, kBitPlanes)`
into one value, the bit of plane `b` contributing `2^b`. -/
def readbackChan (fb : Framebuffer) (x yn chan : Nat) : Nat :=
  Finset.sum (Finset.Ico (kBitPlanes - fb.pwm_bits) kBitPlanes) (fun bpl =>
    if readChan fb.rows fb.double_rows yn chan
         (fb.buffer (fb.offset (yn &&& fb.row_mask) x bpl)) then 2 ^ bpl else 0)

/-- The bit-plane color invariant: every cell of every displayed-geometry
offset whose plane lies below `kBitPlanes - P` has all color-lane bits equal
to the inverted-zero value (`true` under `INVERSE_RGB_DISPLAY_COLORS`,
`false` otherwise). -/
def ColorPlaneInv (fb : Framebuffer) (P : Nat) : Prop :=
  ∀ row col bit, row < fb.double_rows → col < fb.columns → bit < kBitPlanes - P →
    colorBitsAre (fb.buffer (fb.offset row col bit)) fb.cfg.inverse_colors = true

/-- The build configuration with neither display option set. -/
def defaultConfig : Config := { swap_green_blue := false, inverse_colors := false }

/-- A freshly constructed 32x32 single-chain framebuffer (scenario S1). -/
def fb32 : Framebuffer := Framebuffer.construct defaultConfig 32 32 1

/-- A small freshly constructed framebuffer (rows 8, two columns, one chain)
used as a concrete instance in witnesses. -/
def fb8 : Framebuffer := Framebuffer.construct defaultConfig 8 2 1

/-! ### Helper lemmas -/

theorem luminance_value_9_100 : luminance_cie1931 9 100 = 8 := by
  unfold luminance_cie1931
  rw [if_pos (by norm_num)]
  have h : ⌊(((1 <<< kBitPlanes) - 1 : Nat) : ℚ) *
      (((9 : ℕ) : ℚ) * ((100 : ℕ) : ℚ) / 255 / (9023 / 10))⌋ = 8 := by
    rw [Int.floor_eq_iff]
    norm_num [kBitPlanes, Nat.shiftLeft_eq]
  rw [h]
  rfl

theorem luminance_spec_value_9_100 : luminance_cie1931_spec 9 100 = 7 := by
  unfold luminance_cie1931_spec
  rw [if_pos (by norm_num)]
  have h : ⌊(((1 <<< kBitPlanes) - 1 : Nat) : ℚ) *
      (((9 : ℕ) : ℚ) * ((100 : ℕ) : ℚ) / 255 / (9033 / 10))⌋ = 7 := by
    rw [Int.floor_eq_iff]
    norm_num [kBitPlanes, Nat.shiftLeft_eq]
  rw [h]
  rfl

theorem luminance_value_255_100 : luminance_cie1931 255 100 = 2047 := by
  unfold luminance_cie1931
  rw [if_neg (by norm_num)]
  have h : ⌊(((1 <<< kBitPlanes) - 1 : Nat) : ℚ) *
      ((((255 : ℕ) : ℚ) * ((100 : ℕ) : ℚ) / 255 + 16) / 116) ^ 3⌋ = 2047 := by
    rw [Int.floor_eq_iff]
    norm_num [kBitPlanes, Nat.shiftLeft_eq]
  rw [h]
  rfl

theorem luminance_value_zero (br : Nat) : luminance_cie1931 0 br = 0 := by
  unfold luminance_cie1931
  rw [if_pos (by norm_num)]
  norm_num

/-- `MapColor 0` is the inverted zero: `0xffff` under the invert option,
`0` otherwise — in both luminance modes and at every brightness. -/
theorem MapColor_zero (fb : Framebuffer) :
    fb.MapColor 0 = if fb.cfg.inverse_colors then 65535 else 0 := by
  unfold Framebuffer.MapColor
  rcases hl : fb.do_luminance_correct with _ | _ <;>
    simp [hl, luminance_value_zero, Nat.zero_div, Nat.zero_mod]

theorem fb32_MapColor_255 : fb32.MapColor 255 = 2047 := by
  have h : fb32.MapColor 255 = luminance_cie1931 255 100 := rfl
  rw [h, luminance_value_255_100]

theorem fb32_MapColor_0 : fb32.MapColor 0 = 0 := by
  have h : fb32.MapColor 0 = luminance_cie1931 0 100 := rfl
  rw [h, luminance_value_zero]

/-- Decomposition of the flat offset back into (row, plane, column). -/
theorem offset_decomp (fb : Framebuffer) (row col bit : Nat)
    (hc : col < fb.columns) (hb : bit < kBitPlanes) :
    fb.offset row col bit / (fb.columns * kBitPlanes) = row ∧
    fb.offset row col bit % (fb.columns * kBitPlanes) / fb.columns = bit ∧
    fb.offset row col bit % fb.columns = col := by
  have hC : 0 < fb.columns := lt_of_le_of_lt (Nat.zero_le _) hc
  have hCK : 0 < fb.columns * kBitPlanes := Nat.mul_pos hC (by norm_num [kBitPlanes])
  have hlt : bit * fb.columns + col < fb.columns * kBitPlanes := by
    calc bit * fb.columns + col < bit * fb.columns + fb.columns := by omega
      _ = (bit + 1) * fb.columns := by ring
      _ ≤ kBitPlanes * fb.columns := Nat.mul_le_mul_right _ hb
      _ = fb.columns * kBitPlanes := Nat.mul_comm _ _
  have hoff : fb.offset row col bit
      = fb.columns * kBitPlanes * row + (bit * fb.columns + col) := by
    unfold Framebuffer.offset; ring
  have hoff2 : fb.offset row col bit
      = col + (row * kBitPlanes + bit) * fb.columns := by
    unfold Framebuffer.offset; ring
  refine ⟨?_, ?_, ?_⟩
  · rw [hoff, Nat.mul_add_div hCK, Nat.div_eq_of_lt hlt]
    omega
  · rw [hoff, Nat.mul_add_mod, Nat.mod_eq_of_lt hlt, Nat.mul_comm bit,
      Nat.mul_add_div hC, Nat.div_eq_of_lt hc]
    omega
  · rw [hoff2, Nat.add_mul_mod_self_right, Nat.mod_eq_of_lt hc]

/-- `SetPixel` leaves every member other than the buffer unchanged. -/
theorem SetPixel_fields (fb : Framebuffer) (x y : Int) (r g b : Nat) :
    (fb.SetPixel x y r g b).rows = fb.rows ∧
    (fb.SetPixel x y r g b).columns = fb.columns ∧
    (fb.SetPixel x y r g b).parallel = fb.parallel ∧
    (fb.SetPixel x y r g b).pwm_bits = fb.pwm_bits ∧
    (fb.SetPixel x y r g b).cfg = fb.cfg ∧
    (fb.SetPixel x y r g b).brightness = fb.brightness ∧
    (fb.SetPixel x y r g b).do_luminance_correct = fb.do_luminance_correct := by
  unfold Framebuffer.SetPixel
  split <;> exact ⟨rfl, rfl, rfl, rfl, rfl, rfl, rfl⟩

/-- `Clear` leaves every member other than the buffer unchanged. -/
theorem Clear_fields (fb : Framebuffer) :
    fb.Clear.rows = fb.rows ∧ fb.Clear.columns = fb.columns ∧
    fb.Clear.parallel = fb.parallel ∧ fb.Clear.pwm_bits = fb.pwm_bits ∧
    fb.Clear.cfg = fb.cfg ∧ fb.Clear.brightness = fb.brightness ∧
    fb.Clear.do_luminance_correct = fb.do_luminance_correct := by
  unfold Framebuffer.Clear Framebuffer.Fill
  split <;> exact ⟨rfl, rfl, rfl, rfl, rfl, rfl, rfl⟩

/-- `SetPWMBits` changes at most `pwm_bits_`; the buffer and geometry stay. -/
theorem SetPWMBits_fields (fb : Framebuffer) (v : Nat) :
    ((fb.SetPWMBits v).2).rows = fb.rows ∧ ((fb.SetPWMBits v).2).columns = fb.columns ∧
    ((fb.SetPWMBits v).2).parallel = fb.parallel ∧ ((fb.SetPWMBits v).2).cfg = fb.cfg ∧
    ((fb.SetPWMBits v).2).buffer = fb.buffer ∧
    ((fb.SetPWMBits v).2).brightness = fb.brightness ∧
    ((fb.SetPWMBits v).2).do_luminance_correct = fb.do_luminance_correct := by
  unfold Framebuffer.SetPWMBits
  split <;> exact ⟨rfl, rfl, rfl, rfl, rfl, rfl, rfl⟩

/-- `SetBrightness` changes at most `brightness_`. -/
theorem SetBrightness_fields (fb : Framebuffer) (v : Nat) :
    (fb.SetBrightness v).rows = fb.rows ∧ (fb.SetBrightness v).columns = fb.columns ∧
    (fb.SetBrightness v).parallel = fb.parallel ∧ (fb.SetBrightness v).cfg = fb.cfg ∧
    (fb.SetBrightness v).buffer = fb.buffer ∧
    (fb.SetBrightness v).pwm_bits = fb.pwm_bits := by
  unfold Framebuffer.SetBrightness
  split <;> exact ⟨rfl, rfl, rfl, rfl, rfl, rfl⟩

/-- `Fill` leaves every member other than the buffer unchanged
(definitionally). -/
theorem Fill_fields (fb : Framebuffer) (r g b : Nat) :
    (fb.Fill r g b).rows = fb.rows ∧ (fb.Fill r g b).columns = fb.columns ∧
    (fb.Fill r g b).parallel = fb.parallel ∧ (fb.Fill r g b).pwm_bits = fb.pwm_bits ∧
    (fb.Fill r g b).cfg = fb.cfg := ⟨rfl, rfl, rfl, rfl, rfl⟩

/-- The buffer cell `Fill` leaves at a decomposable offset. -/
theorem Fill_buffer_offset (fb : Framebuffer) (r g b : Nat) (row col bit : Nat)
    (hc : col < fb.columns) (hb : bit < kBitPlanes) :
    (fb.Fill r g b).buffer (fb.offset row col bit) =
      if row < fb.double_rows ∧ kBitPlanes - fb.pwm_bits ≤ bit then
        planeBitsOf (fb.MapColor r)
          (fb.MapColor (if fb.cfg.swap_green_blue then b else g))
          (fb.MapColor (if fb.cfg.swap_green_blue then g else b)) bit
      else fb.buffer (fb.offset row col bit) := by
  obtain ⟨h1, h2, _⟩ := offset_decomp fb row col bit hc hb
  unfold Framebuffer.Fill
  dsimp only
  rw [h1, h2]

/-- The buffer cell `SetPixel` leaves at a decomposable offset, in range. -/
theorem SetPixel_buffer_offset (fb : Framebuffer) (x y : Int) (r g b : Nat)
    (hx0 : 0 ≤ x) (hx : x < (fb.columns : Int)) (hy0 : 0 ≤ y)
    (hy : y < (fb.height : Int)) (row col bit : Nat)
    (hc : col < fb.columns) (hb : bit < kBitPlanes) :
    (fb.SetPixel x y r g b).buffer (fb.offset row col bit) =
      if row = y.toNat &&& fb.row_mask ∧ col = x.toNat ∧
          kBitPlanes - fb.pwm_bits ≤ bit then
        setPixelFields fb.rows fb.double_rows y.toNat (fb.MapColor r)
          (fb.MapColor (if fb.cfg.swap_green_blue then b else g))
          (fb.MapColor (if fb.cfg.swap_green_blue then g else b)) bit
          (fb.buffer (fb.offset row col bit))
      else fb.buffer (fb.offset row col bit) := by
  obtain ⟨h1, h2, h3⟩ := offset_decomp fb row col bit hc hb
  have hguard : ¬(x < 0 ∨ (fb.columns : Int) ≤ x ∨ y < 0 ∨ (fb.height : Int) ≤ y) := by
    push_neg
    exact ⟨hx0, hx, hy0, hy⟩
  unfold Framebuffer.SetPixel
  rw [if_neg hguard]
  dsimp only
  rw [h1, h2, h3]

/-- A plane below `kBitPlanes - pwm_bits_` is untouched by `SetPixel`. -/
theorem SetPixel_buffer_lower (fb : Framebuffer) (x y : Int) (r g b : Nat)
    (row col bit : Nat) (hc : col < fb.columns) (hb : bit < kBitPlanes)
    (hlow : bit < kBitPlanes - fb.pwm_bits) :
    (fb.SetPixel x y r g b).buffer (fb.offset row col bit) =
      fb.buffer (fb.offset row col bit) := by
  obtain ⟨h1, h2, h3⟩ := offset_decomp fb row col bit hc hb
  unfold Framebuffer.SetPixel
  split
  · rfl
  · dsimp only
    rw [h1, h2, h3, if_neg]
    rintro ⟨-, -, h⟩
    omega

/-- Every event of one plane drives one of: the color+clock mask, the clock
bit, the strobe bit, or nothing. -/
theorem planeEvents_mask (fb : Framebuffer) (d bpl : Nat) :
    ∀ ev ∈ planeEvents fb d bpl,
      eventMask ev = colorClkMask fb.parallel ∨ eventMask ev = clockBits ∨
      eventMask ev = strobeBits ∨ eventMask ev = IoBits.zero := by
  intro ev hev
  unfold planeEvents at hev
  rcases List.mem_append.1 hev with h | h
  · rcases List.mem_flatMap.1 h with ⟨col, -, hin⟩
    simp only [List.mem_cons, List.not_mem_nil, or_false] at hin
    rcases hin with h' | h' <;> subst h' <;> simp [eventMask]
  · simp only [List.mem_cons, List.not_mem_nil, or_false] at h
    rcases h with h' | h' | h' | h' | h' <;> subst h' <;> simp [eventMask]

/-- Every event of one double-row drives one of: the full address-line mask,
the color+clock mask, the clock bit, the strobe bit, or nothing. -/
theorem DumpRow_mask (fb : Framebuffer) (p d : Nat) :
    ∀ ev ∈ DumpRow fb p d,
      eventMask ev = rowMaskBits ∨ eventMask ev = colorClkMask fb.parallel ∨
      eventMask ev = clockBits ∨ eventMask ev = strobeBits ∨
      eventMask ev = IoBits.zero := by
  intro ev hev
  unfold DumpRow at hev
  rcases List.mem_cons.1 hev with h | h
  · subst h
    left
    rfl
  · rcases List.mem_append.1 h with h' | h'
    · rcases List.mem_flatMap.1 h' with ⟨bpl, -, hb⟩
      have := planeEvents_mask fb d bpl ev hb
      tauto
    · simp only [List.mem_cons, List.not_mem_nil, or_false] at h'
      subst h'
      right; right; right; right
      rfl

/-- Every event of a frame drives one of the five masks above. -/
theorem DumpToMatrix_mask (fb : Framebuffer) :
    ∀ ev ∈ fb.DumpToMatrix,
      eventMask ev = rowMaskBits ∨ eventMask ev = colorClkMask fb.parallel ∨
      eventMask ev = clockBits ∨ eventMask ev = strobeBits ∨
      eventMask ev = IoBits.zero := by
  intro ev hev
  unfold Framebuffer.DumpToMatrix at hev
  rcases List.mem_flatMap.1 hev with ⟨d, -, hd⟩
  exact DumpRow_mask fb fb.pwm_bits d ev hd

/-- The color+clock mask only drives pins that `InitGPIO` declares. -/
theorem subset_colorClk (rows parallel : Nat) :
    IoBits.subset (colorClkMask parallel) (initMask rows parallel) = true := by
  simp [IoBits.subset, colorClkMask, initMask]

/-- The clock bit is declared by `InitGPIO`. -/
theorem subset_clock (rows parallel : Nat) :
    IoBits.subset clockBits (initMask rows parallel) = true := by
  simp [IoBits.subset, clockBits, initMask]

/-- The strobe bit is declared by `InitGPIO`. -/
theorem subset_strobe (rows parallel : Nat) :
    IoBits.subset strobeBits (initMask rows parallel) = true := by
  simp [IoBits.subset, strobeBits, initMask]

/-- An empty mask is always a subset. -/
theorem subset_zero (rows parallel : Nat) :
    IoBits.subset IoBits.zero (initMask rows parallel) = true := by
  simp [IoBits.subset, IoBits.zero, initMask]

/-- For the geometries the constructor accepts, the refresh engine's
address-line mask {a,b,c,d,e} is a subset of the initialized pins exactly
when `rows = 64` — for smaller panels `InitGPIO` leaves the upper address
lines undeclared while `DumpToMatrix` still masks all five. -/
theorem subset_rowMask_iff (rows parallel : Nat)
    (hrows : rows = 8 ∨ rows = 16 ∨ rows = 32 ∨ rows = 64) :
    (IoBits.subset rowMaskBits (initMask rows parallel) = true) ↔ rows = 64 := by
  rcases hrows with h | h | h | h <;> subst h <;>
    simp [IoBits.subset, rowMaskBits, initMask]

theorem pulsePlanes_append (l1 l2 : List OutputEvent) :
    pulsePlanes (l1 ++ l2) = pulsePlanes l1 ++ pulsePlanes l2 := by
  simp [pulsePlanes, List.filterMap_append]

theorem pulsePlanes_colWrites (fb : Framebuffer) (d bpl : Nat) (cols : List Nat) :
    pulsePlanes (cols.flatMap (fun col =>
      [OutputEvent.writeMasked (fb.buffer (fb.offset d col bpl))
         (colorClkMask fb.parallel),
       OutputEvent.setBits clockBits])) = [] := by
  induction cols with
  | nil => rfl
  | cons hd tl ih => rw [List.flatMap_cons, pulsePlanes_append, ih]; rfl

/-- One plane pulses exactly its own index. -/
theorem pulsePlanes_planeEvents (fb : Framebuffer) (d bpl : Nat) :
    pulsePlanes (planeEvents fb d bpl) = [bpl] := by
  unfold planeEvents
  rw [pulsePlanes_append, pulsePlanes_colWrites]
  rfl

theorem pulsePlanes_flatMap (fb : Framebuffer) (d : Nat) (l : List Nat) :
    pulsePlanes (l.flatMap (planeEvents fb d)) = l := by
  induction l with
  | nil => rfl
  | cons hd tl ih =>
    rw [List.flatMap_cons, pulsePlanes_append, pulsePlanes_planeEvents, ih]
    rfl

/-- One double-row pulses exactly the planes `[kBitPlanes - p, kBitPlanes)`
in increasing order. -/
theorem pulsePlanes_DumpRow (fb : Framebuffer) (p d : Nat) :
    pulsePlanes (DumpRow fb p d) = List.range' (kBitPlanes - p) p := by
  unfold DumpRow
  show pulsePlanes (OutputEvent.writeMasked (rowAddressBits d) rowMaskBits ::
    (((List.range' (kBitPlanes - p) p).flatMap (planeEvents fb d)) ++
     [OutputEvent.waitPulseFinished])) = _
  rw [show ∀ l, pulsePlanes (OutputEvent.writeMasked (rowAddressBits d)
        rowMaskBits :: l) = pulsePlanes l from fun l => rfl,
    pulsePlanes_append, pulsePlanes_flatMap]
  simp [pulsePlanes]

theorem strobeSetCount_append (l1 l2 : List OutputEvent) :
    strobeSetCount (l1 ++ l2) = strobeSetCount l1 + strobeSetCount l2 := by
  simp [strobeSetCount, List.countP_append]

theorem strobeSetCount_colWrites (fb : Framebuffer) (d bpl : Nat)
    (cols : List Nat) :
    strobeSetCount (cols.flatMap (fun col =>
      [OutputEvent.writeMasked (fb.buffer (fb.offset d col bpl))
         (colorClkMask fb.parallel),
       OutputEvent.setBits clockBits])) = 0 := by
  induction cols with
  | nil => rfl
  | cons hd tl ih => rw [List.flatMap_cons, strobeSetCount_append, ih]; rfl

/-- One plane strobes exactly once. -/
theorem strobeSetCount_planeEvents (fb : Framebuffer) (d bpl : Nat) :
    strobeSetCount (planeEvents fb d bpl) = 1 := by
  unfold planeEvents
  rw [strobeSetCount_append, strobeSetCount_colWrites]
  rfl

theorem strobeSetCount_flatMap (fb : Framebuffer) (d : Nat) (l : List Nat) :
    strobeSetCount (l.flatMap (planeEvents fb d)) = l.length := by
  induction l with
  | nil => rfl
  | cons hd tl ih =>
    rw [List.flatMap_cons, strobeSetCount_append, strobeSetCount_planeEvents, ih,
      List.length_cons]
    omega

/-- One double-row strobes exactly `p` times. -/
theorem strobeSetCount_DumpRow (fb : Framebuffer) (p d : Nat) :
    strobeSetCount (DumpRow fb p d) = p := by
  unfold DumpRow
  show strobeSetCount (OutputEvent.writeMasked (rowAddressBits d) rowMaskBits ::
    (((List.range' (kBitPlanes - p) p).flatMap (planeEvents fb d)) ++
     [OutputEvent.waitPulseFinished])) = _
  rw [show ∀ l, strobeSetCount (OutputEvent.writeMasked (rowAddressBits d)
        rowMaskBits :: l) = strobeSetCount l from fun l => rfl,
    strobeSetCount_append, strobeSetCount_flatMap]
  simp [strobeSetCount]

/-- Summing `2^bit` over the bits of `v` set in `[lo, hi)` yields `v`'s value
windowed to those binary digits. -/
theorem sum_ite_testBit (v : Nat) : ∀ hi lo, lo ≤ hi →
    Finset.sum (Finset.Ico lo hi)
      (fun bit => if v.testBit bit then 2 ^ bit else 0) =
      v % 2 ^ hi - v % 2 ^ lo := by
  intro hi
  induction hi with
  | zero =>
    intro lo h
    have : lo = 0 := by omega
    subst this
    simp
  | succ n ih =>
    intro lo h
    by_cases hlo : lo ≤ n
    · rw [Finset.sum_Ico_succ_top hlo, ih lo hlo]
      have hmod : v % 2 ^ (n + 1) = v % 2 ^ n + 2 ^ n * (v / 2 ^ n % 2) := by
        rw [pow_succ, Nat.mod_mul]
      have hle : v % 2 ^ lo ≤ v % 2 ^ n := by
        calc v % 2 ^ lo = v % 2 ^ n % 2 ^ lo := by
              rw [Nat.mod_mod_of_dvd _ (pow_dvd_pow 2 hlo)]
          _ ≤ v % 2 ^ n := Nat.mod_le _ _
      have hbit : v.testBit n = decide (v / 2 ^ n % 2 = 1) :=
        Nat.testBit_to_div_mod
      have h2 : v / 2 ^ n % 2 < 2 := Nat.mod_lt _ (by norm_num)
      by_cases htb : v.testBit n = true
      · rw [if_pos htb]
        have h1 : v / 2 ^ n % 2 = 1 := by
          rw [hbit] at htb
          simpa using htb
        rw [h1, Nat.mul_one] at hmod
        omega
      · rw [if_neg htb]
        have h0 : v / 2 ^ n % 2 = 0 := by
          rw [hbit] at htb
          simp at htb
          omega
        rw [h0, Nat.mul_zero] at hmod
        omega
    · have : lo = n + 1 := by omega
      subst this
      simp

/-- Reading a channel back from the cell `setPixelFields` wrote recovers the
written bit: the chain/sub-panel selection of `readChan` mirrors that of
`setPixelFields`. -/
theorem readChan_setPixelFields (rows double_rows yn red green blue pl : Nat)
    (w : IoBits) (hyn : yn < 3 * rows) :
    readChan rows double_rows yn 0
        (setPixelFields rows double_rows yn red green blue pl w) =
      red.testBit pl ∧
    readChan rows double_rows yn 1
        (setPixelFields rows double_rows yn red green blue pl w) =
      green.testBit pl ∧
    readChan rows double_rows yn 2
        (setPixelFields rows double_rows yn red green blue pl w) =
      blue.testBit pl := by
  rcases Nat.lt_or_ge yn rows with h1 | h1
  · rcases Nat.lt_or_ge yn double_rows with h2 | h2
    · simp [readChan, setPixelFields, h1, h2]
    · simp [readChan, setPixelFields, h1, Nat.not_lt.mpr h2]
  · have hn1 : ¬ yn < rows := Nat.not_lt.mpr h1
    rcases Nat.lt_or_ge yn (2 * rows) with h2 | h2
    · rcases Nat.lt_or_ge (yn - rows) double_rows with h3 | h3
      · simp [readChan, setPixelFields, hn1, h2, h3]
      · simp [readChan, setPixelFields, hn1, h2, Nat.not_lt.mpr h3]
    · have hn2 : ¬ yn < 2 * rows := Nat.not_lt.mpr h2
      have h4 : yn < 3 * rows := hyn
      rcases Nat.lt_or_ge (yn - 2 * rows) double_rows with h3 | h3
      · simp [readChan, setPixelFields, hn1, hn2, h4, h3]
      · simp [readChan, setPixelFields, hn1, hn2, h4, Nat.not_lt.mpr h3]

/-- A plane below `kBitPlanes - pwm_bits_` is untouched by `Fill`. -/
theorem Fill_buffer_lower (fb : Framebuffer) (r g b : Nat) (row col bit : Nat)
    (hc : col < fb.columns) (hb : bit < kBitPlanes)
    (hlow : bit < kBitPlanes - fb.pwm_bits) :
    (fb.Fill r g b).buffer (fb.offset row col bit) =
      fb.buffer (fb.offset row col bit) := by
  rw [Fill_buffer_offset fb r g b row col bit hc hb, if_neg]
  rintro ⟨-, h⟩
  omega

/-- All color lanes of the plane word of an all-ones (inverted-zero) color
are set. -/
theorem colorBitsAre_planeBits_ones (bit : Nat) (hb : bit < 16) :
    colorBitsAre (planeBitsOf 65535 65535 65535 bit) true = true := by
  have ht : (65535 : Nat).testBit bit = true := by
    rw [show (65535 : Nat) = 2 ^ 16 - 1 by norm_num, Nat.testBit_two_pow_sub_one]
    simpa using hb
  simp [colorBitsAre, planeBitsOf, ht]

/-- Without the invert option, `Clear` resets the buffer to all-zero words. -/
theorem Clear_buffer_noninv (fb : Framebuffer)
    (h : fb.cfg.inverse_colors = false) :
    fb.Clear.buffer = fun _ => IoBits.zero := by
  unfold Framebuffer.Clear
  rw [if_neg (by simp [h])]

/-- Under the invert option, `Clear` is `Fill(0, 0, 0)`. -/
theorem Clear_buffer_inv (fb : Framebuffer)
    (h : fb.cfg.inverse_colors = true) : fb.Clear = fb.Fill 0 0 0 := by
  unfold Framebuffer.Clear
  rw [if_pos h]

/-- `Fill` with the current `pwm_bits_ ≤ P` preserves the lower-plane color
invariant for `P`. -/
theorem fill_inv (fb : Framebuffer) (r g b P : Nat) (hle : fb.pwm_bits ≤ P)
    (hinv : ColorPlaneInv fb P) : ColorPlaneInv (fb.Fill r g b) P := by
  intro row col bit hrow hcol hbit
  have hb : bit < kBitPlanes := by omega
  show colorBitsAre ((fb.Fill r g b).buffer (fb.offset row col bit))
    fb.cfg.inverse_colors = true
  rw [Fill_buffer_lower fb r g b row col bit hcol hb (by omega)]
  exact hinv row col bit hrow hcol hbit

/-- Under the invert option, `Fill(0, 0, 0)` preserves the invariant at any
`pwm_bits_`: the planes it writes receive all-ones color lanes, the planes it
skips keep their all-ones value. -/
theorem fill_zero_inv_invert (fb : Framebuffer) (P : Nat)
    (hi : fb.cfg.inverse_colors = true) (hinv : ColorPlaneInv fb P) :
    ColorPlaneInv (fb.Fill 0 0 0) P := by
  intro row col bit hrow hcol hbit
  have hb : bit < kBitPlanes := by omega
  show colorBitsAre ((fb.Fill 0 0 0).buffer (fb.offset row col bit))
    fb.cfg.inverse_colors = true
  have hz : fb.MapColor 0 = 65535 := by
    rw [MapColor_zero, if_pos hi]
  rw [Fill_buffer_offset fb 0 0 0 row col bit hcol hb, ite_self]
  split_ifs with h
  · rw [hz, hi]
    exact colorBitsAre_planeBits_ones bit (by
      have hk : kBitPlanes = 11 := rfl
      omega)
  · exact hinv row col bit hrow hcol hbit

/-- `SetPixel` with the current `pwm_bits_ ≤ P` preserves the lower-plane
color invariant for `P`. -/
theorem setPixel_inv (fb : Framebuffer) (x y : Int) (r g b P : Nat)
    (hle : fb.pwm_bits ≤ P) (hinv : ColorPlaneInv fb P) :
    ColorPlaneInv (fb.SetPixel x y r g b) P := by
  intro row col bit hrow hcol hbit
  obtain ⟨er, ec, -, -, ecfg, -, -⟩ := SetPixel_fields fb x y r g b
  have hrow' : row < fb.double_rows := by
    simpa [Framebuffer.double_rows, er] using hrow
  have hcol' : col < fb.columns := by
    simpa [ec] using hcol
  have hb : bit < kBitPlanes := by omega
  have eoff : (fb.SetPixel x y r g b).offset row col bit =
      fb.offset row col bit := by
    unfold Framebuffer.offset
    rw [ec]
  rw [eoff, ecfg,
    SetPixel_buffer_lower fb x y r g b row col bit hcol' hb (by omega)]
  exact hinv row col bit hrow' hcol' hbit

/-- `Clear` preserves the lower-plane color invariant for any `P`. -/
theorem clear_inv (fb : Framebuffer) (P : Nat) (hinv : ColorPlaneInv fb P) :
    ColorPlaneInv fb.Clear P := by
  rcases hi : fb.cfg.inverse_colors with _ | _
  · intro row col bit hrow hcol hbit
    obtain ⟨-, -, -, -, ecfg, -, -⟩ := Clear_fields fb
    rw [Clear_buffer_noninv fb hi, ecfg]
    show colorBitsAre IoBits.zero fb.cfg.inverse_colors = true
    rw [hi]
    decide
  · rw [Clear_buffer_inv fb hi]
    exact fill_zero_inv_invert fb P hi hinv

/-- `SetPWMBits` does not touch the buffer, so the invariant for a fixed `P`
is preserved. -/
theorem setPWMBits_inv (fb : Framebuffer) (v P : Nat)
    (hinv : ColorPlaneInv fb P) : ColorPlaneInv (fb.SetPWMBits v).2 P := by
  intro row col bit hrow hcol hbit
  obtain ⟨er, ec, -, ecfg, ebuf, -, -⟩ := SetPWMBits_fields fb v
  have hrow' : row < fb.double_rows := by
    simpa [Framebuffer.double_rows, er] using hrow
  have hcol' : col < fb.columns := by
    simpa [ec] using hcol
  have eoff : ((fb.SetPWMBits v).2).offset row col bit =
      fb.offset row col bit := by
    unfold Framebuffer.offset
    rw [ec]
  rw [eoff, ecfg, ebuf]
  exact hinv row col bit hrow' hcol' hbit

/-- `SetBrightness` does not touch the buffer. -/
theorem setBrightness_inv (fb : Framebuffer) (v P : Nat)
    (hinv : ColorPlaneInv fb P) : ColorPlaneInv (fb.SetBrightness v) P := by
  intro row col bit hrow hcol hbit
  obtain ⟨er, ec, -, ecfg, ebuf, -⟩ := SetBrightness_fields fb v
  have hrow' : row < fb.double_rows := by
    simpa [Framebuffer.double_rows, er] using hrow
  have hcol' : col < fb.columns := by
    simpa [ec] using hcol
  have eoff : (fb.SetBrightness v).offset row col bit =
      fb.offset row col bit := by
    unfold Framebuffer.offset
    rw [ec]
  rw [eoff, ecfg, ebuf]
  exact hinv row col bit hrow' hcol' hbit

/-- One mutator call preserves the invariant, provided a buffer write only
happens while `pwm_bits_ ≤ P`. -/
theorem applyMutator_inv (fb : Framebuffer) (m : Mutator) (P : Nat)
    (hw : isBufferWrite m = true → fb.pwm_bits ≤ P)
    (hinv : ColorPlaneInv fb P) : ColorPlaneInv (applyMutator fb m) P := by
  cases m with
  | clear => exact clear_inv fb P hinv
  | fill r g b => exact fill_inv fb r g b P (hw rfl) hinv
  | setPixel x y r g b => exact setPixel_inv fb x y r g b P (hw rfl) hinv
  | setPWMBits v => exact setPWMBits_inv fb v P hinv
  | setBrightness v => exact setBrightness_inv fb v P hinv

/-- A bounded sequence of mutator calls preserves the invariant. -/
theorem runMutators_inv (P : Nat) : ∀ (L : List Mutator) (fb : Framebuffer),
    ColorPlaneInv fb P → writesBounded P fb L = true →
    ColorPlaneInv (runMutators fb L) P := by
  intro L
  induction L with
  | nil => exact fun fb h _ => h
  | cons m t ih =>
    intro fb h hwb
    simp only [writesBounded, Bool.and_eq_true] at hwb
    obtain ⟨h1, h2⟩ := hwb
    have hcond : isBufferWrite m = true → fb.pwm_bits ≤ P := by
      intro hbw
      rw [hbw] at h1
      simpa using h1
    exact ih (applyMutator fb m) (applyMutator_inv fb m P hcond h) h2

/-- A freshly constructed framebuffer satisfies the invariant for every `P`:
without invert every cell is zero; with invert the constructor's
`Clear = Fill(0,0,0)` at `pwm_bits = kBitPlanes` wrote all-ones color lanes
into every plane of every cell in range. -/
theorem construct_inv (cfg : Config) (rows columns parallel P : Nat) :
    ColorPlaneInv (Framebuffer.construct cfg rows columns parallel) P := by
  unfold Framebuffer.construct
  intro row col bit hrow hcol hbit
  obtain ⟨er, ec, -, -, ecfg, -, -⟩ :=
    Clear_fields (rawFramebuffer cfg rows columns parallel)
  have hrow' : row < (rawFramebuffer cfg rows columns parallel).double_rows := by
    simpa [Framebuffer.double_rows, er] using hrow
  have hcol' : col < (rawFramebuffer cfg rows columns parallel).columns := by
    simpa [ec] using hcol
  have hb : bit < kBitPlanes := by omega
  rcases hi : cfg.inverse_colors with _ | _
  · have hi0 : (rawFramebuffer cfg rows columns parallel).cfg.inverse_colors
        = false := hi
    rw [Clear_buffer_noninv _ hi0, ecfg]
    show colorBitsAre IoBits.zero
      (rawFramebuffer cfg rows columns parallel).cfg.inverse_colors = true
    rw [hi0]
    decide
  · have hi0 : (rawFramebuffer cfg rows columns parallel).cfg.inverse_colors
        = true := hi
    rw [Clear_buffer_inv _ hi0]
    show colorBitsAre
      (((rawFramebuffer cfg rows columns parallel).Fill 0 0 0).buffer
        ((rawFramebuffer cfg rows columns parallel).offset row col bit))
      (rawFramebuffer cfg rows columns parallel).cfg.inverse_colors = true
    have hz : (rawFramebuffer cfg rows columns parallel).MapColor 0 = 65535 := by
      rw [MapColor_zero, if_pos hi0]
    have hpwm0 : (rawFramebuffer cfg rows columns parallel).pwm_bits
        = kBitPlanes := rfl
    rw [Fill_buffer_offset _ 0 0 0 row col bit hcol' hb, ite_self,
      if_pos ⟨hrow', by rw [hpwm0]; omega⟩, hz, hi0]
    exact colorBitsAre_planeBits_ones bit (by
      have hk : kBitPlanes = 11 := rfl
      omega)

/-- The mutator API never changes the configuration record. -/
theorem runMutators_cfg : ∀ (L : List Mutator) (fb : Framebuffer),
    (runMutators fb L).cfg = fb.cfg := by
  intro L
  induction L with
  | nil => exact fun fb => rfl
  | cons m t ih =>
    intro fb
    have h : (applyMutator fb m).cfg = fb.cfg := by
      cases m with
      | clear => exact (Clear_fields fb).2.2.2.2.1
      | fill r g b => rfl
      | setPixel x y r g b => exact (SetPixel_fields fb x y r g b).2.2.2.2.1
      | setPWMBits v => exact (SetPWMBits_fields fb v).2.2.2.1
      | setBrightness v => exact (SetBrightness_fields fb v).2.2.2.1
    exact (ih (applyMutator fb m)).trans h

/-! ### Claim theorems -/

/-- C1 (code_bug): the code's corrected-mode luminance curve divides the
linear toe by 902.3, not by the CIE1931 constant 903.3 that the spec states.
At input byte 9 with brightness 100 (`x = 900/255 ≈ 3.53 ≤ 8`), `MapColor`
(corrected mode, no invert) returns 8, while the spec's formula yields 7. -/
theorem C1_cie1931_divisor_bug :
    fb32.MapColor 9 = 8 ∧ luminance_cie1931 9 100 = 8 ∧
    luminance_cie1931_spec 9 100 = 7 ∧ fb32.do_luminance_correct = true ∧
    fb32.brightness = 100 ∧ (8 : Nat) ≠ 7 := by
  have h : fb32.MapColor 9 = luminance_cie1931 9 100 := rfl
  exact ⟨h.trans luminance_value_9_100, luminance_value_9_100,
    luminance_spec_value_9_100, rfl, rfl, by decide⟩

/-- C7: `SetPWMBits(v)` fails exactly for `v < 1` or `v > 11`; on failure the
whole state is returned unchanged; `SetPWMBits(1)` and `SetPWMBits(11)`
succeed and store the value. -/
theorem C7_SetPWMBits_validation (fb : Framebuffer) (v : Nat) :
    ((fb.SetPWMBits v).1 = false ↔ (v < 1 ∨ 11 < v)) ∧
    ((v < 1 ∨ 11 < v) → fb.SetPWMBits v = (false, fb)) ∧
    fb.SetPWMBits 1 = (true, { fb with pwm_bits := 1 }) ∧
    fb.SetPWMBits 11 = (true, { fb with pwm_bits := 11 }) := by
  unfold Framebuffer.SetPWMBits
  refine ⟨?_, ?_, ?_, ?_⟩
  · by_cases h : v < 1 ∨ v > kBitPlanes
    · rw [if_pos h]
      simpa [kBitPlanes] using h
    · rw [if_neg h]
      simpa [kBitPlanes] using h
  · intro h
    rw [if_pos (by simpa [kBitPlanes] using h)]
  · rfl
  · rfl

/-- C7 witness: concrete instances of the validation behavior. -/
theorem C7_SetPWMBits_validation_witness :
    (fb8.SetPWMBits 0).1 = false ∧ fb8.SetPWMBits 0 = (false, fb8) ∧
    fb8.SetPWMBits 1 = (true, { fb8 with pwm_bits := 1 }) ∧
    fb8.SetPWMBits 11 = (true, { fb8 with pwm_bits := 11 }) := by
  obtain ⟨h1, h2, h3, h4⟩ := C7_SetPWMBits_validation fb8 0
  exact ⟨h1.mpr (Or.inl (by decide)), h2 (Or.inl (by decide)), h3, h4⟩

/-- C8: an out-of-range `SetPixel` is a silent no-op: the whole state — in
particular the bit-plane buffer — is returned unchanged. -/
theorem C8_SetPixel_out_of_range (fb : Framebuffer) (x y : Int) (r g b : Nat)
    (h : x < 0 ∨ (fb.columns : Int) ≤ x ∨ y < 0 ∨
      ((fb.rows * fb.parallel : Nat) : Int) ≤ y) :
    fb.SetPixel x y r g b = fb := by
  have h' : x < 0 ∨ (fb.columns : Int) ≤ x ∨ y < 0 ∨ (fb.height : Int) ≤ y := h
  unfold Framebuffer.SetPixel
  rw [if_pos h']

/-- C8 witness: scenario S3 on the 32x32 framebuffer. -/
theorem C8_SetPixel_out_of_range_witness :
    fb32.SetPixel (-1) 0 255 255 255 = fb32 ∧
    fb32.SetPixel 0 10000 255 255 255 = fb32 :=
  ⟨C8_SetPixel_out_of_range fb32 (-1) 0 255 255 255 (Or.inl (by decide)),
   C8_SetPixel_out_of_range fb32 0 10000 255 255 255
     (Or.inr (Or.inr (Or.inr (by decide))))⟩

/-- C10: the pulse-duration table handed to `PinPulser::Create` has eleven
entries, entry `k` being `kBaseTimeNanos << k = 130 * 2^k` nanoseconds. -/
theorem C10_bitplane_timings (k : Nat) (hk : k < kBitPlanes) :
    bitplane_timings.length = kBitPlanes ∧
    bitplane_timings[k]? = some (kBaseTimeNanos * 2 ^ k) ∧
    kBaseTimeNanos = 130 := by
  refine ⟨by simp [bitplane_timings], ?_, rfl⟩
  simp [bitplane_timings, List.getElem?_map, List.getElem?_range, hk,
    Nat.shiftLeft_eq]

/-- C10 witness: the table entry for plane 3. -/
theorem C10_bitplane_timings_witness :
    bitplane_timings.length = kBitPlanes ∧
    bitplane_timings[3]? = some (kBaseTimeNanos * 2 ^ 3) ∧
    kBaseTimeNanos = 130 :=
  C10_bitplane_timings 3 (by decide)

/-- C2 (counterexample): on a 32-row panel (`double_rows = 16`), the very
first GPIO write of `DumpToMatrix` — the row-address write — uses the full
address mask {a,b,c,d,e}, but `InitGPIO` declared only {a,b,c,d} (line `e`
needs `double_rows >= 32`), so its mask is not a subset of the initialized
pins. -/
theorem C2_counterexample :
    (fb32.DumpToMatrix).head? =
      some (OutputEvent.writeMasked (rowAddressBits 0) rowMaskBits) ∧
    IoBits.subset
      (eventMask (OutputEvent.writeMasked (rowAddressBits 0) rowMaskBits))
      (initMask fb32.rows fb32.parallel) = false :=
  ⟨rfl, by decide⟩

/-- C2 (amended): every GPIO write of a frame either drives the full
address-line mask {a,b,c,d,e} (the row-address write) or a mask that is a
subset of the pins `InitGPIO` declares; the address-line mask itself is a
subset of the declared pins exactly when `rows = 64`, so the claim as stated
holds precisely for 64-row panels. -/
theorem C2_mask_subset_amended (fb : Framebuffer)
    (hrows : fb.rows = 8 ∨ fb.rows = 16 ∨ fb.rows = 32 ∨ fb.rows = 64) :
    (∀ ev ∈ fb.DumpToMatrix,
        eventMask ev = rowMaskBits ∨
        IoBits.subset (eventMask ev) (initMask fb.rows fb.parallel) = true) ∧
    (fb.rows = 64 → ∀ ev ∈ fb.DumpToMatrix,
        IoBits.subset (eventMask ev) (initMask fb.rows fb.parallel) = true) ∧
    ((IoBits.subset rowMaskBits (initMask fb.rows fb.parallel) = true) ↔
      fb.rows = 64) := by
  refine ⟨?_, ?_, subset_rowMask_iff fb.rows fb.parallel hrows⟩
  · intro ev hev
    rcases DumpToMatrix_mask fb ev hev with h | h | h | h | h
    · exact Or.inl h
    · exact Or.inr (by rw [h]; exact subset_colorClk _ _)
    · exact Or.inr (by rw [h]; exact subset_clock _ _)
    · exact Or.inr (by rw [h]; exact subset_strobe _ _)
    · exact Or.inr (by rw [h]; exact subset_zero _ _)
  · intro h64 ev hev
    rcases DumpToMatrix_mask fb ev hev with h | h | h | h | h
    · rw [h]
      exact (subset_rowMask_iff fb.rows fb.parallel hrows).2 h64
    · rw [h]; exact subset_colorClk _ _
    · rw [h]; exact subset_clock _ _
    · rw [h]; exact subset_strobe _ _
    · rw [h]; exact subset_zero _ _

/-- C2 witness: a concrete event of the small framebuffer's frame satisfies
the amended disjunction. -/
theorem C2_mask_subset_witness :
    eventMask (OutputEvent.setBits clockBits) = rowMaskBits ∨
    IoBits.subset (eventMask (OutputEvent.setBits clockBits))
      (initMask fb8.rows fb8.parallel) = true :=
  (C2_mask_subset_amended fb8 (Or.inl rfl)).1
    (OutputEvent.setBits clockBits) (by decide)

/-- C9 (confirmed): each double-row's event list starts with the row-address
write: its value carries bits 0..4 of `d_row` on the address fields a..e, its
mask is exactly the address-line set {a,b,c,d,e}, no later event of the row
touches an address line (so the write is issued once per double-row, before
any plane is clocked), and a frame is the concatenation of the double-rows
`0 .. double_rows` with `pwm_bits_` read once. -/
theorem C9_row_address_write (fb : Framebuffer) (p d_row : Nat) :
    DumpRow fb p d_row =
      OutputEvent.writeMasked (rowAddressBits d_row) rowMaskBits ::
        (((List.range' (kBitPlanes - p) p).flatMap (planeEvents fb d_row)) ++
         [OutputEvent.waitPulseFinished]) ∧
    (rowAddressBits d_row).a = d_row.testBit 0 ∧
    (rowAddressBits d_row).b = d_row.testBit 1 ∧
    (rowAddressBits d_row).c = d_row.testBit 2 ∧
    (rowAddressBits d_row).d = d_row.testBit 3 ∧
    (rowAddressBits d_row).e = d_row.testBit 4 ∧
    rowMaskBits = { a := true, b := true, c := true, d := true, e := true } ∧
    (∀ ev ∈ ((List.range' (kBitPlanes - p) p).flatMap (planeEvents fb d_row)) ++
        [OutputEvent.waitPulseFinished],
      addressFree (eventMask ev) = true) ∧
    fb.DumpToMatrix = (List.range fb.double_rows).flatMap (DumpRow fb fb.pwm_bits) := by
  refine ⟨rfl, rfl, rfl, rfl, rfl, rfl, rfl, ?_, rfl⟩
  intro ev hev
  rcases List.mem_append.1 hev with h | h
  · rcases List.mem_flatMap.1 h with ⟨bpl, -, hb⟩
    rcases planeEvents_mask fb d_row bpl ev hb with h' | h' | h' | h' <;>
      rw [h'] <;> simp [addressFree, colorClkMask, clockBits, strobeBits,
        IoBits.zero]
  · simp only [List.mem_cons, List.not_mem_nil, or_false] at h
    subst h
    rfl

/-- C9 witness: a concrete later event of a concrete double-row touches no
address line. -/
theorem C9_row_address_write_witness :
    addressFree (eventMask (OutputEvent.sendPulse 10)) = true := by
  obtain ⟨-, -, -, -, -, -, -, htail, -⟩ := C9_row_address_write fb8 11 0
  exact htail (OutputEvent.sendPulse 10) (by decide)

/-- C6 (confirmed): after `SetPWMBits(m)` succeeds, a frame walk latches
`pwm_to_show = m` once; each double-row emits exactly `m` `SendPulse` calls,
one per plane `b ∈ [kBitPlanes - m, kBitPlanes)` in increasing order, each
preceded by its strobe set/clear pair, and exactly `m` strobe sets. -/
theorem C6_planes_per_row (fb : Framebuffer) (m : Nat) (h1 : 1 ≤ m)
    (h2 : m ≤ kBitPlanes) :
    fb.SetPWMBits m = (true, { fb with pwm_bits := m }) ∧
    (({ fb with pwm_bits := m } : Framebuffer).DumpToMatrix =
      (List.range fb.double_rows).flatMap (DumpRow { fb with pwm_bits := m } m)) ∧
    (∀ d_row, pulsePlanes (DumpRow { fb with pwm_bits := m } m d_row) =
        List.range' (kBitPlanes - m) m) ∧
    (∀ d_row, strobeSetCount (DumpRow { fb with pwm_bits := m } m d_row) = m) ∧
    (List.range' (kBitPlanes - m) m).length = m ∧
    (∀ d_row bpl, ∃ pre, planeEvents { fb with pwm_bits := m } d_row bpl =
        pre ++ [OutputEvent.setBits strobeBits, OutputEvent.clearBits strobeBits,
          OutputEvent.sendPulse bpl]) := by
  refine ⟨?_, rfl, fun d_row => pulsePlanes_DumpRow _ m d_row,
    fun d_row => strobeSetCount_DumpRow _ m d_row, by simp, ?_⟩
  · unfold Framebuffer.SetPWMBits
    rw [if_neg (by omega)]
  · intro d_row bpl
    refine ⟨((List.range ({ fb with pwm_bits := m } : Framebuffer).columns).flatMap
      (fun col =>
        [OutputEvent.writeMasked
           (({ fb with pwm_bits := m } : Framebuffer).buffer
             (({ fb with pwm_bits := m } : Framebuffer).offset d_row col bpl))
           (colorClkMask ({ fb with pwm_bits := m } : Framebuffer).parallel),
         OutputEvent.setBits clockBits])) ++
      [OutputEvent.clearBits
         (colorClkMask ({ fb with pwm_bits := m } : Framebuffer).parallel),
       OutputEvent.waitPulseFinished], ?_⟩
    unfold planeEvents
    simp [List.append_assoc]

/-- C6 witness: with `pwm_bits = 2` on the small framebuffer, a double-row
pulses exactly planes 9 and 10 and strobes exactly twice. -/
theorem C6_planes_per_row_witness :
    pulsePlanes (DumpRow { fb8 with pwm_bits := 2 } 2 0) =
      List.range' (kBitPlanes - 2) 2 ∧
    strobeSetCount (DumpRow { fb8 with pwm_bits := 2 } 2 0) = 2 := by
  obtain ⟨-, -, h3, h4, -, -⟩ := C6_planes_per_row fb8 2 (by decide) (by decide)
  exact ⟨h3 0, h4 0⟩

/-- C4 (counterexample): in scenario S1, `MapColor(255) = 2047` has every
plane bit set, so after `SetPixel(0,0,255,0,0)` the cell at
`(double_row 0, col 0, plane 0)` has `p0_r1 = 1` — not all color bits zero
as the claim expects. -/
theorem C4_counterexample :
    ((fb32.SetPixel 0 0 255 0 0).buffer (fb32.offset 0 0 0)).p0_r1 = true := by
  have hcell : (fb32.SetPixel 0 0 255 0 0).buffer (fb32.offset 0 0 0) =
      { IoBits.zero with
        p0_r1 := (fb32.MapColor 255).testBit 0,
        p0_g1 := (fb32.MapColor 0).testBit 0,
        p0_b1 := (fb32.MapColor 0).testBit 0 } := rfl
  rw [hcell, fb32_MapColor_255, fb32_MapColor_0]
  decide

/-- C4 (amended): scenario S1 with the plane-0 expectation corrected.  After
`SetPixel(0, 0, 255, 0, 0)` on the fresh 32x32 framebuffer: the cell at
`(0, 0, plane 10)` has exactly `p0_r1 = 1` among the color bits; the cell at
`(0, 0, plane 0)` likewise has `p0_r1 = 1` (not all zeros — `MapColor(255)`
is 2047, all eleven plane bits set); and every cell of every other column is
unchanged from its cleared (zero) state. -/
theorem C4_S1_amended :
    (fb32.SetPixel 0 0 255 0 0).buffer (fb32.offset 0 0 10) =
      { IoBits.zero with p0_r1 := true } ∧
    (fb32.SetPixel 0 0 255 0 0).buffer (fb32.offset 0 0 0) =
      { IoBits.zero with p0_r1 := true } ∧
    fb32.MapColor 255 = 2047 ∧
    (∀ col, col < 32 → col ≠ 0 → ∀ row bit, row < 16 → bit < kBitPlanes →
      (fb32.SetPixel 0 0 255 0 0).buffer (fb32.offset row col bit) =
        IoBits.zero) ∧
    fb32.buffer = fun _ => IoBits.zero := by
  have hcell10 : (fb32.SetPixel 0 0 255 0 0).buffer (fb32.offset 0 0 10) =
      { IoBits.zero with
        p0_r1 := (fb32.MapColor 255).testBit 10,
        p0_g1 := (fb32.MapColor 0).testBit 10,
        p0_b1 := (fb32.MapColor 0).testBit 10 } := rfl
  have hcell0 : (fb32.SetPixel 0 0 255 0 0).buffer (fb32.offset 0 0 0) =
      { IoBits.zero with
        p0_r1 := (fb32.MapColor 255).testBit 0,
        p0_g1 := (fb32.MapColor 0).testBit 0,
        p0_b1 := (fb32.MapColor 0).testBit 0 } := rfl
  refine ⟨?_, ?_, fb32_MapColor_255, ?_, rfl⟩
  · rw [hcell10, fb32_MapColor_255, fb32_MapColor_0]
    decide
  · rw [hcell0, fb32_MapColor_255, fb32_MapColor_0]
    decide
  · intro col h32 hne row bit hrow hbit
    have hres := SetPixel_buffer_offset fb32 0 0 255 0 0 (by decide) (by decide)
      (by decide) (by decide) row col bit h32 hbit
    rw [hres, if_neg]
    · rfl
    · rintro ⟨-, h2, -⟩
      exact hne h2

/-- C4 witness: a concrete untouched cell in another column. -/
theorem C4_S1_amended_witness :
    (fb32.SetPixel 0 0 255 0 0).buffer (fb32.offset 0 1 0) = IoBits.zero :=
  C4_S1_amended.2.2.2.1 1 (by decide) (by decide) 0 0 (by decide) (by decide)

/-- C5 (counterexample): with `pwm_bits = 1`, only plane 10 is stored, so the
value reassembled from planes `[10, 11)` after `SetPixel(0,0,255,0,0)` is
1024, not `MapColor(255) = 2047`: the planes below `kBitPlanes - pwm_bits`
are lost and the claimed equality fails. -/
theorem C5_counterexample :
    readbackChan ((fb32.SetPWMBits 1).2.SetPixel 0 0 255 0 0) 0 0 0 = 1024 ∧
    fb32.MapColor 255 = 2047 ∧ (1024 : Nat) ≠ 2047 := by
  refine ⟨?_, fb32_MapColor_255, by decide⟩
  have hIco : Finset.Ico
      (kBitPlanes - ((fb32.SetPWMBits 1).2.SetPixel 0 0 255 0 0).pwm_bits)
      kBitPlanes = {10} := by decide
  unfold readbackChan
  rw [hIco, Finset.sum_singleton]
  show (if readChan 32 16 0 0
      { IoBits.zero with
        p0_r1 := (fb32.MapColor 255).testBit 10,
        p0_g1 := (fb32.MapColor 0).testBit 10,
        p0_b1 := (fb32.MapColor 0).testBit 10 }
    then 2 ^ 10 else 0) = 1024
  rw [fb32_MapColor_255, fb32_MapColor_0]
  decide

/-- C5 (amended): after an in-range `SetPixel(x, y, r, g, b)`, the per-plane
color bits stored across the displayed planes `[kBitPlanes - pwm_bits,
kBitPlanes)`, reassembled with plane `b` contributing `2^b`, equal the mapped
colors `(MapColor(r), MapColor(g'), MapColor(b'))` — with `(g', b')` swapped
under `swap_green_blue` — windowed to exactly those binary digits, i.e.
`MapColor(v) mod 2^kBitPlanes − MapColor(v) mod 2^(kBitPlanes - pwm_bits)`.
For `pwm_bits = 11` and no invert this is `MapColor(v)` itself. -/
theorem C5_roundtrip_amended (fb : Framebuffer) (x y : Int) (r g b : Nat)
    (hpar : fb.parallel ≤ 3) (hpwm : fb.pwm_bits ≤ kBitPlanes)
    (hx0 : 0 ≤ x) (hx : x < (fb.columns : Int)) (hy0 : 0 ≤ y)
    (hy : y < (fb.height : Int)) :
    readbackChan (fb.SetPixel x y r g b) x.toNat y.toNat 0 =
      fb.MapColor r % 2 ^ kBitPlanes -
        fb.MapColor r % 2 ^ (kBitPlanes - fb.pwm_bits) ∧
    readbackChan (fb.SetPixel x y r g b) x.toNat y.toNat 1 =
      fb.MapColor (if fb.cfg.swap_green_blue then b else g) % 2 ^ kBitPlanes -
        fb.MapColor (if fb.cfg.swap_green_blue then b else g) %
          2 ^ (kBitPlanes - fb.pwm_bits) ∧
    readbackChan (fb.SetPixel x y r g b) x.toNat y.toNat 2 =
      fb.MapColor (if fb.cfg.swap_green_blue then g else b) % 2 ^ kBitPlanes -
        fb.MapColor (if fb.cfg.swap_green_blue then g else b) %
          2 ^ (kBitPlanes - fb.pwm_bits) := by
  obtain ⟨er, ec, -, epwm, ecfg, -, -⟩ := SetPixel_fields fb x y r g b
  have edr : (fb.SetPixel x y r g b).double_rows = fb.double_rows := by
    unfold Framebuffer.double_rows
    rw [er]
  have erm : (fb.SetPixel x y r g b).row_mask = fb.row_mask := by
    unfold Framebuffer.row_mask
    rw [edr]
  have eoff : ∀ a o p, (fb.SetPixel x y r g b).offset a o p = fb.offset a o p := by
    intro a o p
    unfold Framebuffer.offset
    rw [ec]
  have hxc : x.toNat < fb.columns := by omega
  have hyh : y.toNat < fb.height := by omega
  have hyn3 : y.toNat < 3 * fb.rows := by
    have h1 : fb.rows * fb.parallel ≤ fb.rows * 3 := Nat.mul_le_mul_left _ hpar
    have h2 : fb.height = fb.rows * fb.parallel := rfl
    have h3 : fb.rows * 3 = 3 * fb.rows := Nat.mul_comm _ _
    omega
  have hcell : ∀ bit, kBitPlanes - fb.pwm_bits ≤ bit → bit < kBitPlanes →
      (fb.SetPixel x y r g b).buffer
        (fb.offset (y.toNat &&& fb.row_mask) x.toNat bit) =
      setPixelFields fb.rows fb.double_rows y.toNat (fb.MapColor r)
        (fb.MapColor (if fb.cfg.swap_green_blue then b else g))
        (fb.MapColor (if fb.cfg.swap_green_blue then g else b)) bit
        (fb.buffer (fb.offset (y.toNat &&& fb.row_mask) x.toNat bit)) := by
    intro bit hlo hhi
    rw [SetPixel_buffer_offset fb x y r g b hx0 hx hy0 hy
      (y.toNat &&& fb.row_mask) x.toNat bit hxc hhi,
      if_pos ⟨rfl, rfl, hlo⟩]
  refine ⟨?_, ?_, ?_⟩ <;>
  · unfold readbackChan
    simp only [er, ec, epwm, ecfg, edr, erm, eoff]
    rw [Finset.sum_congr rfl (fun bit hbit => ?_),
      sum_ite_testBit _ kBitPlanes (kBitPlanes - fb.pwm_bits) (by omega)]
    rw [Finset.mem_Ico] at hbit
    rw [hcell bit hbit.1 hbit.2]
    obtain ⟨hr0, hr1, hr2⟩ := readChan_setPixelFields fb.rows fb.double_rows
      y.toNat (fb.MapColor r)
      (fb.MapColor (if fb.cfg.swap_green_blue then b else g))
      (fb.MapColor (if fb.cfg.swap_green_blue then g else b)) bit
      (fb.buffer (fb.offset (y.toNat &&& fb.row_mask) x.toNat bit)) hyn3
    first
    | rw [hr0]
    | rw [hr1]
    | rw [hr2]

/-- C5 witness: the round-trip at a concrete in-range pixel. -/
theorem C5_roundtrip_witness :
    readbackChan (fb8.SetPixel 1 0 9 0 0) 1 0 0 =
      fb8.MapColor 9 % 2 ^ kBitPlanes -
        fb8.MapColor 9 % 2 ^ (kBitPlanes - fb8.pwm_bits) :=
  (C5_roundtrip_amended fb8 1 0 9 0 0 (by decide) (by decide) (by decide)
    (by decide) (by decide) (by decide)).1

/-- C3 (counterexample): `SetPixel(0,0,255,0,0)` at `pwm_bits = 11` writes
plane 0 (`MapColor(255) = 2047` sets it), and a following `SetPWMBits(1)`
does not clear it; at observation time `pwm_bits = 1`, so plane
`0 < 11 - pwm_bits = 10` should have all color bits zero, but `p0_r1` is set. -/
theorem C3_counterexample :
    (runMutators fb32 [Mutator.setPixel 0 0 255 0 0,
      Mutator.setPWMBits 1]).pwm_bits = 1 ∧
    (0 : Nat) < kBitPlanes - (runMutators fb32 [Mutator.setPixel 0 0 255 0 0,
      Mutator.setPWMBits 1]).pwm_bits ∧
    colorBitsAre
      ((runMutators fb32 [Mutator.setPixel 0 0 255 0 0,
          Mutator.setPWMBits 1]).buffer
        ((runMutators fb32 [Mutator.setPixel 0 0 255 0 0,
            Mutator.setPWMBits 1]).offset 0 0 0))
      fb32.cfg.inverse_colors = false := by
  refine ⟨rfl, by decide, ?_⟩
  have hcell : (runMutators fb32 [Mutator.setPixel 0 0 255 0 0,
      Mutator.setPWMBits 1]).buffer
      ((runMutators fb32 [Mutator.setPixel 0 0 255 0 0,
        Mutator.setPWMBits 1]).offset 0 0 0) =
      { IoBits.zero with
        p0_r1 := (fb32.MapColor 255).testBit 0,
        p0_g1 := (fb32.MapColor 0).testBit 0,
        p0_b1 := (fb32.MapColor 0).testBit 0 } := rfl
  rw [hcell, fb32_MapColor_255, fb32_MapColor_0]
  decide

/-- C3 (amended): the lower-plane invariant holds with `pwm_bits` read at
observation time, provided every `Fill`/`SetPixel` in the sequence ran while
`pwm_bits_` was at most its observation-time value (`SetPWMBits` does not
clear planes that an earlier call wrote under a larger `pwm_bits_`).  Then,
after any such sequence from a fresh framebuffer, every color bit of every
cell at a plane below `kBitPlanes - pwm_bits` equals zero — or one under the
invert option. -/
theorem C3_lower_planes_amended (cfg : Config) (rows columns parallel : Nat)
    (L : List Mutator)
    (hwb : writesBounded
      ((runMutators (Framebuffer.construct cfg rows columns parallel) L).pwm_bits)
      (Framebuffer.construct cfg rows columns parallel) L = true)
    (row col bit : Nat)
    (hrow : row <
      (runMutators (Framebuffer.construct cfg rows columns parallel) L).double_rows)
    (hcol : col <
      (runMutators (Framebuffer.construct cfg rows columns parallel) L).columns)
    (hbit : bit < kBitPlanes -
      (runMutators (Framebuffer.construct cfg rows columns parallel) L).pwm_bits) :
    colorBitsAre
      ((runMutators (Framebuffer.construct cfg rows columns parallel) L).buffer
        ((runMutators (Framebuffer.construct cfg rows columns parallel) L).offset
          row col bit))
      cfg.inverse_colors = true := by
  have h := runMutators_inv
    ((runMutators (Framebuffer.construct cfg rows columns parallel) L).pwm_bits)
    L (Framebuffer.construct cfg rows columns parallel)
    (construct_inv cfg rows columns parallel _) hwb
    row col bit hrow hcol hbit
  have hcfg : (runMutators (Framebuffer.construct cfg rows columns parallel) L).cfg
      = cfg := by
    rw [runMutators_cfg L (Framebuffer.construct cfg rows columns parallel)]
    unfold Framebuffer.construct
    exact (Clear_fields (rawFramebuffer cfg rows columns parallel)).2.2.2.2.1
  rwa [hcfg] at h

/-- C3 witness: a bounded sequence on a concrete fresh framebuffer. -/
theorem C3_lower_planes_witness :
    colorBitsAre
      ((runMutators (Framebuffer.construct defaultConfig 8 2 1)
          [Mutator.setPWMBits 3]).buffer
        ((runMutators (Framebuffer.construct defaultConfig 8 2 1)
            [Mutator.setPWMBits 3]).offset 0 0 0))
      defaultConfig.inverse_colors = true :=
  C3_lower_planes_amended defaultConfig 8 2 1 [Mutator.setPWMBits 3]
    (by decide) 0 0 0 (by decide) (by decide) (by decide)

end RgbMatrix
